import Mathlib

/-!
Verification of the `version_query.version` module: a shallow embedding of the
`Version` class (validating constructor, string parser `from_str`, serializer
`to_str`, dict round-trip, tuple projections and the comparison operators),
together with proofs and refutations of the specified properties.

Numbers are embedded as `Int` (Python ints; validation rejects the negatives),
strings as Lean `String` (Python `str` comparison is lexicographic by code
point, as is Lean's), fallible operations as `Except String`.
-/

/-! ## Character classes of the grammar

The source defines the grammar with explicit character alternatives:
`_re_number = 0|[1-9][0-9]*`, `_re_letters = [a-zA-Z]+`,
`_re_alphanumeric = [0-9a-zA-Z]+`, `_re_sep = [.-]`. `Char.isDigit`,
`Char.isAlpha` and `Char.isAlphanum` are exactly these ASCII classes. -/

def isSepChar (c : Char) : Bool := c = '.' || c = '-'

/-- Numeric value of a digit run (the regex guarantees no leading zeros). -/
def digitsToNat (ds : List Char) : Nat :=
  ds.foldl (fun a c => a * 10 + (c.toNat - 48)) 0

/-- Greedy match of `_re_number = (?:0|[123456789][0123456789]*)`: a literal
`'0'` matches alone (the alternation tries `0` first), otherwise a maximal
nonzero-led digit run. -/
def parseNumber : List Char → Option (Nat × List Char)
  | [] => none
  | c :: rest =>
    if c = '0' then some (0, rest)
    else if c.isDigit then
      some (digitsToNat (c :: rest.takeWhile Char.isDigit), rest.dropWhile Char.isDigit)
    else none

/-- Greedy match of `_re_letters`: a maximal nonempty ASCII-letter run. -/
def parseLetters : List Char → Option (String × List Char)
  | s =>
    let ls := s.takeWhile Char.isAlpha
    if ls.isEmpty then none else some (String.mk ls, s.dropWhile Char.isAlpha)

/-- Greedy match of `_re_alphanumeric`: a maximal nonempty ASCII-alphanumeric run. -/
def parseAlnum : List Char → Option (String × List Char)
  | s =>
    let ls := s.takeWhile Char.isAlphanum
    if ls.isEmpty then none else some (String.mk ls, s.dropWhile Char.isAlphanum)

/-! ## Pre-release segments

A parsed pre-release segment is the triple of the regex's named groups
`(preseparator, pretype, prepatch)`; the separator and type are optional
strings, the patch an optional integer. -/

abbrev PreSeg := Option String × Option String × Option Int

/-- One pre-release segment: the ordered regex alternation
`(?:[.-][0-9]+-number)|(?:[.-]?[a-z]+[0-9]+?)`, i.e. first `sep number`, else
`sep? letters number?` with each piece greedy.  This is the match performed at
each position by `_pattern_pre_release.findall` and re-decomposed by
`_pattern_pre_release_part.fullmatch` into the three groups. -/
def parseSeg : List Char → Option (PreSeg × List Char)
  | [] => none
  | c :: rest =>
    if isSepChar c then
      match parseNumber rest with
      | some (n, rest') => some ((some c.toString, none, some (n : Int)), rest')
      | none =>
        match parseLetters rest with
        | some (ls, rest') =>
          match parseNumber rest' with
          | some (n, rest'') => some ((some c.toString, some ls, some (n : Int)), rest'')
          | none => some ((some c.toString, some ls, none), rest')
        | none => none
    else
      match parseLetters (c :: rest) with
      | some (ls, rest') =>
        match parseNumber rest' with
        | some (n, rest'') => some ((none, some ls, some (n : Int)), rest'')
        | none => some ((none, some ls, none), rest')
      | none => none

/-- Greedy repetition of `parseSeg` (the `(...)+` of `_re_pre_release` /
the scan of `findall`), fuelled: each successful `parseSeg` consumes at least
one character, so `length + 1` fuel is never exhausted. -/
def parseSegsF : Nat → List Char → List PreSeg × List Char
  | 0, s => ([], s)
  | fuel + 1, s =>
    match parseSeg s with
    | none => ([], s)
    | some (seg, rest) =>
      let (more, fin) := parseSegsF fuel rest
      (seg :: more, fin)

def parseSegs (s : List Char) : List PreSeg × List Char :=
  parseSegsF (s.length + 1) s

/-! ## Release and local -/

/-- Optional `\.number` continuation of the release. -/
def parseDotNumber : List Char → Option (Nat × List Char)
  | '.' :: rest => parseNumber rest
  | _ => none

/-- The release part `number(\.number)?(\.number)?`, groups
`(major, minor, patch)`; each optional group is taken greedily when `.digit`
follows (backtracking can never turn a failure into a success here, since a
rejected `\.number` suffix is matched by the identical pre-release
alternative). -/
def parseRelease (s : List Char) : Option ((Nat × Option Nat × Option Nat) × List Char) :=
  match parseNumber s with
  | none => none
  | some (maj, r1) =>
    match parseDotNumber r1 with
    | none => some ((maj, none, none), r1)
    | some (mi, r2) =>
      match parseDotNumber r2 with
      | none => some ((maj, some mi, none), r2)
      | some (pa, r3) => some ((maj, some mi, some pa), r3)

/-- The repeated local group `(?:([.-])([0-9a-zA-Z]+))*` of `_pattern_local`:
a repeated Python capture group retains only its **last** iteration, so the
scan returns the final `(separator, part)` pair. -/
def parseLocalTailF : Nat → Option (String × String) → List Char →
    Option (String × String) × List Char
  | 0, acc, s => (acc, s)
  | _ + 1, acc, [] => (acc, [])
  | fuel + 1, acc, c :: rest =>
    if isSepChar c then
      match parseAlnum rest with
      | some (p, rest') => parseLocalTailF fuel (some (c.toString, p)) rest'
      | none => (acc, c :: rest)
    else (acc, c :: rest)

/-- The local part `\+([0-9a-zA-Z]+)(?:([.-])([0-9a-zA-Z]+))*`, returning the
captured groups: the first part and the last `(separator, part)` pair (if the
starred group matched at all). -/
def parseLocalGroups : List Char → Option ((String × Option (String × String)) × List Char)
  | '+' :: rest =>
    match parseAlnum rest with
    | some (p1, r1) =>
      let (lastPair, r2) := parseLocalTailF (r1.length + 1) none r1
      some ((p1, lastPair), r2)
    | none => none
  | _ => none

/-- `_parse_local_str`: `tuple(_ for _ in match.groups() if _ is not None)` on
the three capture groups of `_pattern_local`. -/
def localFromGroups : String × Option (String × String) → List String
  | (p1, none) => [p1]
  | (p1, some (sep, p2)) => [p1, sep, p2]

/-- `_pattern_version.fullmatch`: `release` then optional `prerelease` then
optional `local`, the whole string consumed.  The regex is deterministic on
full matches: the greedy choice succeeds whenever any backtracking choice
does, and Python reports the greedy captures. -/
def parseVersionGroups (s : List Char) :
    Option ((Nat × Option Nat × Option Nat) × Option (List PreSeg) ×
      Option (String × Option (String × String))) :=
  match parseRelease s with
  | none => none
  | some (rel, r1) =>
    let (segs, r2) := parseSegs r1
    let pre := if segs.isEmpty then none else some segs
    if r2.isEmpty then some (rel, pre, none)
    else
      match parseLocalGroups r2 with
      | none => none
      | some (loc, r3) => if r3.isEmpty then some (rel, pre, some loc) else none

/-! ## The Version value type and its validating constructor -/

structure Version where
  _major : Int
  _minor : Option Int
  _patch : Option Int
  _pre_release : Option (List PreSeg)
  _local : List String
deriving DecidableEq, Repr

/-- The `local` parameter of `Version.__init__` is `t.Union[str, tuple]` with
default `None`. -/
inductive LocalArg where
  | noLocal
  | str (s : String)
  | tup (parts : List String)
deriving DecidableEq, Repr

/-- A `None`-or-non-negative-int check of `Version.__init__` (the `isinstance`
checks of the Python code are rendered by the typed embedding). -/
def checkOptNonneg (name : String) : Option Int → Except String Unit
  | none => .ok ()
  | some n =>
    if n < 0 then .error (name ++ "=" ++ toString n ++ " has wrong value") else .ok ()

/-- The release-number checks of `Version.__init__`, in source order:
`major >= 0`, `minor >= 0` if set, `patch >= 0` if set, no patch without
minor. -/
def checkReleaseNumbers (major : Int) (minor patch : Option Int) : Except String Unit :=
  if major < 0 then .error ("major=" ++ toString major ++ " has wrong value")
  else
    match checkOptNonneg "minor" minor with
    | .error e => .error e
    | .ok _ =>
      match checkOptNonneg "patch" patch with
      | .error e => .error e
      | .ok _ =>
        if minor.isNone && patch.isSome then .error "patch is present but not minor"
        else .ok ()

def checkSepValue : Option String → Except String Unit
  | none => .ok ()
  | some s =>
    if s ≠ "-" && s ≠ "." then .error ("pre_separator=" ++ s ++ " has wrong value")
    else .ok ()

/-- Per-segment validation of `Version.__init__`, in source order: separator,
when present, is `'-'` or `'.'`; patch, when present, is non-negative; a
patch alone without separator and type is rejected; a separator alone is
rejected. -/
def checkPreSeg (seg : PreSeg) : Except String Unit :=
  match checkSepValue seg.1 with
  | .error e => .error e
  | .ok _ =>
    match checkOptNonneg "pre_patch" seg.2.2 with
    | .error e => .error e
    | .ok _ =>
      if seg.1.isNone && seg.2.1.isNone && seg.2.2.isSome then
        .error "only pre_patch is present but neither pre_separator nor pre_type is"
      else if seg.1.isSome && seg.2.1.isNone && seg.2.2.isNone then
        .error "pre_separator is present but neither pre_type nor pre_patch is"
      else .ok ()

def checkPreSegs : List PreSeg → Except String Unit
  | [] => .ok ()
  | seg :: rest =>
    match checkPreSeg seg with
    | .error e => .error e
    | .ok _ => checkPreSegs rest

/-- The pre-release checks of `Version.__init__`: a given list must be
non-empty and every segment well-formed. -/
def checkPreRelease : Option (List PreSeg) → Except String Unit
  | none => .ok ()
  | some [] => .error "pre_release has no elements although it is set"
  | some l => checkPreSegs l

/-- `Version.__init__` local normalization (with no legacy positional `args`):
`None` becomes the empty tuple, a bare string is wrapped as a 1-tuple, a tuple
is taken as is. -/
def decodeLocalArg : LocalArg → List String
  | .noLocal => []
  | .str s => [s]
  | .tup parts => parts

/-- The local checks of `Version.__init__`: every odd-indexed token (a
separator position) must be `'-'` or `'.'`. -/
def checkLocalParts : Nat → List String → Except String Unit
  | _, [] => .ok ()
  | i, p :: rest =>
    if i % 2 = 1 && !(p = "-" || p = ".") then
      .error ("local_separator=" ++ p ++ " has wrong value")
    else checkLocalParts (i + 1) rest

/-- `Version.__init__` with the structured calling convention (no legacy flat
positional `args`): validates and stores the fields. -/
def Version.init (major : Int) (minor : Option Int := none) (patch : Option Int := none)
    (pre_release : Option (List PreSeg) := none) (local_ : LocalArg := .noLocal) :
    Except String Version :=
  match checkReleaseNumbers major minor patch with
  | .error e => .error e
  | .ok _ =>
    match checkPreRelease pre_release with
    | .error e => .error e
    | .ok _ =>
      match checkLocalParts 0 (decodeLocalArg local_) with
      | .error e => .error e
      | .ok _ => .ok ⟨major, minor, patch, pre_release, decodeLocalArg local_⟩

/-! ## `from_str` -/

/-- Python `repr` of a string restricted to the shapes this library prints:
single-quoted unless the string holds a single quote and no double quote;
backslashes, quotes, newline/return/tab and other control characters
escaped. -/
def pyReprChar (quote c : Char) : String :=
  let backslash := Char.ofNat 92
  if c = backslash then String.mk [backslash, backslash]
  else if c = quote then String.mk [backslash, quote]
  else if c = '\n' then String.mk [backslash, 'n']
  else if c = '\r' then String.mk [backslash, 'r']
  else if c = '\t' then String.mk [backslash, 't']
  else if c.toNat < 32 || c.toNat = 127 then
    let hexDigit (n : Nat) : Char := if n < 10 then Char.ofNat (48 + n) else Char.ofNat (87 + n)
    String.mk [backslash, 'x', hexDigit (c.toNat / 16), hexDigit (c.toNat % 16)]
  else c.toString

def pyReprStr (s : String) : String :=
  let squote := Char.ofNat 39
  let dquote := Char.ofNat 34
  let quote := if s.data.contains squote && !s.data.contains dquote then dquote else squote
  quote.toString ++ String.join (s.data.map (pyReprChar quote)) ++ quote.toString

/-- The message of the `ValueError` raised by `from_str` on a failed full
match: `'version string {} is invalid'.format(repr(version_str))`. -/
def invalidVersionMessage (s : String) : String :=
  "version string " ++ pyReprStr s ++ " is invalid"

/-- `Version.from_str`: full-match the version grammar (failure raises a
`ValueError` quoting the string), decode the three captures and feed them to
the constructor. -/
def Version.fromStr (s : String) : Except String Version :=
  match parseVersionGroups s.data with
  | none => .error (invalidVersionMessage s)
  | some ((maj, mi, pa), pre, loc) =>
    Version.init (maj : Int) (mi.map (fun n => (n : Int))) (pa.map (fun n => (n : Int)))
      pre
      (match loc with
       | none => .noLocal
       | some g => .tup (localFromGroups g))

/-- Total helper: the parsed version, defaulting to `Version(0)` when parsing
fails (used only to name concrete parsed versions in theorem statements). -/
def Version.fromStrD (s : String) : Version :=
  match Version.fromStr s with
  | .ok v => v
  | .error _ => ⟨0, none, none, none, []⟩

/-! ## `to_str` -/

/-- `Version._to_str_release`: the `_version_tuple_checker` patterns
`(T,F,F)`, `(T,T,F)`, `(T,T,T)`; anything else raises.  `major` is always an
int in a constructed instance, so the checker's first flag always holds. -/
def Version.toStrRelease (v : Version) : Except String String :=
  match v._minor, v._patch with
  | none, none => .ok (toString v._major)
  | some mi, none => .ok (toString v._major ++ "." ++ toString mi)
  | some mi, some pa =>
    .ok (toString v._major ++ "." ++ toString mi ++ "." ++ toString pa)
  | none, some _ => .error "cannot generate valid version string"

/-- `Version._to_str_pre_release_segment`: only the checker patterns
`(F,F,F)`, `(T,T,F)`, `(T,F,T)`, `(T,T,T)` are serializable; every other
shape (in particular any segment without a separator but with a type) raises
`ValueError`. -/
def toStrPreSegment : PreSeg → Except String String
  | (none, none, none) => .ok ""
  | (some s, some t, none) => .ok (s ++ t)
  | (some s, none, some p) => .ok (s ++ toString p)
  | (some s, some t, some p) => .ok (s ++ t ++ toString p)
  | _ => .error "cannot generate valid version string"

def toStrPreSegments : List PreSeg → Except String String
  | [] => .ok ""
  | seg :: rest => do
    let s ← toStrPreSegment seg
    let r ← toStrPreSegments rest
    pure (s ++ r)

/-- `Version._to_str_pre_release`. -/
def Version.toStrPreRelease (v : Version) : Except String String :=
  match v._pre_release with
  | none => .ok ""
  | some segs => toStrPreSegments segs

/-- `Version._to_str_local`: empty string for an empty tuple, else `'+'` and
the concatenated tokens. -/
def Version.toStrLocal (v : Version) : String :=
  if v._local.isEmpty then "" else "+" ++ String.join v._local

/-- `Version.to_str`. -/
def Version.toStr (v : Version) : Except String String := do
  let r ← v.toStrRelease
  let p ← v.toStrPreRelease
  pure (r ++ p ++ v.toStrLocal)

/-! ## Tuple projections with sort-normalization

`release_to_tuple(sort=True)` defaults missing numbers to 0;
`pre_release_segment_to_tuple(sort=True)` maps a segment to
`(1 if type is None else 0, lowercased type or '', patch or 0)`;
`pre_release_to_tuple(sort=True)` represents an absent pre-release by the
single sentinel segment `(1, '', 0)`; `local_to_tuple(sort=True)` maps
separators to the integer 0 and lowercases the parts. -/

/-- `str.lower`, character by character; agrees with Python on ASCII, which
is all the grammar admits. -/
def strLower (s : String) : String := String.mk (s.data.map Char.toLower)

abbrev NormSeg := Nat × String × Int

def sentinelSeg : NormSeg := (1, "", 0)

def normSeg : PreSeg → NormSeg
  | (_, ty, pa) =>
    (if ty.isNone then 1 else 0, strLower (ty.getD ""), pa.getD 0)

def Version.releaseSort (v : Version) : Int × Int × Int :=
  (v._major, v._minor.getD 0, v._patch.getD 0)

def Version.preSort (v : Version) : List NormSeg :=
  match v._pre_release with
  | none => [sentinelSeg]
  | some segs => segs.map normSeg

/-- A sort-normalized local token: Python yields the int `0` for a separator
and a lowercased string otherwise, so the tuple is heterogeneous. -/
inductive LocalTok where
  | int (n : Int)
  | str (s : String)
deriving DecidableEq, Repr

def Version.localSort (v : Version) : List LocalTok :=
  v._local.map fun p => if p = "." || p = "-" then .int 0 else .str (strLower p)

/-! ## Comparison (`__lt__`, `__eq__`)

Python compares tuples of ints and strings lexicographically; comparing an
int against a string with `<` raises `TypeError`, while `!=` across the two
kinds is simply `True`. -/

/-- Lexicographic `<` on the release triples (Python tuple comparison). -/
def ltRel (a b : Int × Int × Int) : Bool :=
  a.1 < b.1 || (a.1 = b.1 && (a.2.1 < b.2.1 || (a.2.1 = b.2.1 && a.2.2 < b.2.2)))

/-- Python `str` comparison: lexicographic by code point. -/
def ltCharList : List Char → List Char → Bool
  | [], [] => false
  | [], _ :: _ => true
  | _ :: _, [] => false
  | a :: as_, b :: bs => a < b || (a = b && ltCharList as_ bs)

def ltStr (a b : String) : Bool := ltCharList a.data b.data

/-- Lexicographic `<` on sort-normalized pre-release segments. -/
def ltNormSeg (a b : NormSeg) : Bool :=
  a.1 < b.1 || (a.1 = b.1 && (ltStr a.2.1 b.2.1 || (a.2.1 = b.2.1 && a.2.2 < b.2.2)))

/-- `<` on local tokens: defined within a kind, a `TypeError` across kinds. -/
def ltLocalTok : LocalTok → LocalTok → Except String Bool
  | .int a, .int b => .ok (decide (a < b))
  | .str a, .str b => .ok (ltStr a b)
  | _, _ => .error "TypeError: unorderable types int and str"

/-- The pre-release stage of `__lt__`: walk
`zip_longest(self, other, fillvalue=(1, '', 0))` and decide at the first
differing pair; `none` renders the `NotImplementedError` raised when the walk
finds no difference although the tuples are unequal. -/
def walkPreNilLeft : List NormSeg → Option Bool
  | [] => none
  | b :: bs => if b ≠ sentinelSeg then some (ltNormSeg sentinelSeg b) else walkPreNilLeft bs

def walkPreNilRight : List NormSeg → Option Bool
  | [] => none
  | a :: as_ => if a ≠ sentinelSeg then some (ltNormSeg a sentinelSeg) else walkPreNilRight as_

def walkPre : List NormSeg → List NormSeg → Option Bool
  | [], bs => walkPreNilLeft bs
  | a :: as_, [] =>
    if a ≠ sentinelSeg then some (ltNormSeg a sentinelSeg) else walkPreNilRight as_
  | a :: as_, b :: bs => if a ≠ b then some (ltNormSeg a b) else walkPre as_ bs

/-- The local stage of `__lt__`: walk `zip(self, other)` deciding at the
first differing pair (which may raise a `TypeError` across kinds), then
compare lengths; equal-length fully-equal lists would reach the
`NotImplementedError` at the end of the stage. -/
def walkLocal : List LocalTok → List LocalTok → Except String Bool
  | [], [] => .error "NotImplementedError"
  | [], _ :: _ => .ok true
  | _ :: _, [] => .ok false
  | a :: as_, b :: bs => if a ≠ b then ltLocalTok a b else walkLocal as_ bs

/-- `Version.__lt__`: three-stage comparison over the sort-normalized
tuples. -/
def Version.lt (a b : Version) : Except String Bool :=
  if a.releaseSort ≠ b.releaseSort then .ok (ltRel a.releaseSort b.releaseSort)
  else if a.preSort ≠ b.preSort then
    match walkPre a.preSort b.preSort with
    | some r => .ok r
    | none => .error "NotImplementedError"
  else if a.localSort ≠ b.localSort then walkLocal a.localSort b.localSort
  else .ok false

/-- `Version.__eq__`: `not self < other and not other < self`, with Python's
short-circuit evaluation order. -/
def Version.eq (a b : Version) : Except String Bool := do
  let x ← Version.lt a b
  if x then pure false
  else do
    let y ← Version.lt b a
    pure (!y)

/-! ## `to_dict` / `from_dict`

`to_dict` returns `vars(self)`, whose keys are the private attribute names
(`_major`, ...).  `from_dict` does `cls(**version_dict)`: Python binds each
key against the parameters of `__init__` (`major`, `minor`, `patch`,
`pre_release`, `local`) and raises `TypeError` on any unexpected keyword. -/

inductive PyVal where
  | none_
  | int (i : Int)
  | str (s : String)
  | preList (l : List PreSeg)
  | localTup (l : List String)
deriving DecidableEq, Repr

def Version.toDict (v : Version) : List (String × PyVal) :=
  [("_major", .int v._major),
   ("_minor", match v._minor with | none => .none_ | some m => .int m),
   ("_patch", match v._patch with | none => .none_ | some p => .int p),
   ("_pre_release", match v._pre_release with | none => .none_ | some l => .preList l),
   ("_local", .localTup v._local)]

def initParamNames : List String := ["major", "minor", "patch", "pre_release", "local"]

def lookupKey (key : String) : List (String × PyVal) → Option PyVal
  | [] => none
  | (k, val) :: rest => if k = key then some val else lookupKey key rest

/-- `Version.from_dict`: keyword-unpack a mapping into the constructor.  A key
that is not a parameter of `__init__` raises `TypeError` before any body code
runs; the typed decoding of each present value mirrors the body's
`isinstance` checks. -/
def Version.fromDict (d : List (String × PyVal)) : Except String Version := do
  if d.any (fun kv => !initParamNames.contains kv.1) then
    throw "TypeError: __init__ got an unexpected keyword argument"
  let major ← match lookupKey "major" d with
    | some (.int m) => pure m
    | some _ => throw "TypeError: major is of wrong type"
    | none => throw "TypeError: __init__ missing required argument major"
  let minor ← match lookupKey "minor" d with
    | some (.int m) => pure (some m)
    | some .none_ | none => pure (none : Option Int)
    | some _ => throw "TypeError: minor is of wrong type"
  let patch ← match lookupKey "patch" d with
    | some (.int p) => pure (some p)
    | some .none_ | none => pure (none : Option Int)
    | some _ => throw "TypeError: patch is of wrong type"
  let pre ← match lookupKey "pre_release" d with
    | some (.preList l) => pure (some l)
    | some .none_ | none => pure (none : Option (List PreSeg))
    | some _ => throw "TypeError: pre_release is of wrong type"
  let loc ← match lookupKey "local" d with
    | some (.localTup l) => pure (LocalArg.tup l)
    | some (.str s) => pure (LocalArg.str s)
    | some .none_ | none => pure LocalArg.noLocal
    | some _ => throw "TypeError: local is of wrong type"
  Version.init major minor patch pre loc

/-! ## `increment`

Modelled from the spec: `Version.increment` is code of this repository that
is absent from `src/` (only `test_version.py` calls it); §4.7 of the spec
defines it as a state machine keyed by a component tag in
{Major, Minor, Patch, DevPatch} and an integer amount (default 1), mutating
the instance and returning it — rendered here as returning the updated
value.  Any other component tag fails with an invalid-argument error. -/

inductive IncComponent where
  | Major
  | Minor
  | Patch
  | DevPatch
  | Release
  | PreType
  | PrePatch
  | PreRelease
  | Local
deriving DecidableEq, Repr

/-- Modelled from the spec: the §4.7 increment state machine.
Major: `major += amount`, reset minor/patch to 0 when they were set, clear
pre-release and local.  Minor: set-or-add minor, reset patch when set, clear
pre-release and local.  Patch: set-or-add patch, clear pre-release and local.
DevPatch: append a `('.', 'dev', amount)` segment when there is no
pre-release or the last segment's type is not `'dev'`, else add amount to the
last segment's patch (absent patch counts as 0). -/
def Version.increment (v : Version) (component : IncComponent) (amount : Int := 1) :
    Except String Version :=
  match component with
  | .Major =>
    .ok ⟨v._major + amount, v._minor.map (fun _ => 0), v._patch.map (fun _ => 0), none, []⟩
  | .Minor =>
    .ok ⟨v._major, some (v._minor.getD 0 + amount), v._patch.map (fun _ => 0), none, []⟩
  | .Patch =>
    .ok ⟨v._major, v._minor, some (v._patch.getD 0 + amount), none, []⟩
  | .DevPatch =>
    match v._pre_release with
    | none => .ok { v with _pre_release := some [(some ".", some "dev", some amount)] }
    | some segs =>
      match segs.getLast? with
      | some (sep, ty, pa) =>
        if ty = some "dev" then
          .ok { v with _pre_release := some (segs.dropLast ++ [(sep, ty, some (pa.getD 0 + amount))]) }
        else
          .ok { v with _pre_release := some (segs ++ [(some ".", some "dev", some amount)]) }
      | none => .ok { v with _pre_release := some [(some ".", some "dev", some amount)] }
  | _ => .error "invalid increment component"

instance exceptDecidableEq {ε α : Type} [DecidableEq ε] [DecidableEq α] :
    DecidableEq (Except ε α) := fun x y =>
  match x, y with
  | .ok a, .ok b =>
    if h : a = b then .isTrue (by rw [h]) else .isFalse (by intro hc; cases hc; exact h rfl)
  | .error a, .error b =>
    if h : a = b then .isTrue (by rw [h]) else .isFalse (by intro hc; cases hc; exact h rfl)
  | .ok _, .error _ => .isFalse (by intro hc; cases hc)
  | .error _, .ok _ => .isFalse (by intro hc; cases hc)

section Examples

example : Version.fromStr "1.0.1.dev0" =
    .ok ⟨1, some 0, some 1, some [(some ".", some "dev", some 0)], []⟩ := by decide

example : Version.fromStr "1+a.b.c" = .ok ⟨1, none, none, none, ["a", ".", "c"]⟩ := by decide

example : Version.fromStr "hello world" =
    .error "version string 'hello world' is invalid" := by decide

example : (Version.fromStrD "0.4.4.dev5+84e1d430").toStr = .ok "0.4.4.dev5+84e1d430" := by decide

example : Version.lt (Version.fromStrD "1.0.1.dev0") (Version.fromStrD "1.0.1") =
    .ok true := by decide

example : Version.lt (Version.fromStrD "1.0.0.1") (Version.fromStrD "1.0.0") =
    .ok false := by decide

example : Version.lt (Version.fromStrD "1.0.0") (Version.fromStrD "1.0.0.1") =
    .ok true := by decide

example : Version.lt (Version.fromStrD "1.0.0.0.0") (Version.fromStrD "1.0.0.0") =
    .error "NotImplementedError" := by decide

example : Version.eq (Version.fromStrD "1.0.0.0") (Version.fromStrD "1.0.0") =
    .ok true := by decide

example : (Version.fromStrD "1rc1").toStr = .error "cannot generate valid version string" := by
  decide

example : Version.fromDict (Version.toDict (Version.fromStrD "1.0.0")) =
    .error "TypeError: __init__ got an unexpected keyword argument" := by decide

example : (Version.fromStrD "1.0.0").increment .DevPatch =
    .ok ⟨1, some 0, some 0, some [(some ".", some "dev", some 1)], []⟩ := by decide

example : (Version.fromStrD "1.2.3").increment .Major =
    .ok ⟨2, some 0, some 0, none, []⟩ := by decide

end Examples

/-! ## Helper lemmas -/

theorem except_bind_error {α β : Type} (e : String) (f : α → Except String β) :
    (Except.error e >>= f) = Except.error e := rfl

theorem except_bind_ok {α β : Type} (a : α) (f : α → Except String β) :
    (Except.ok a >>= f) = f a := rfl

instance decEqListPreSeg : DecidableEq (List PreSeg) := inferInstance

instance decEqReleaseGroups : DecidableEq (Nat × Option Nat × Option Nat) := inferInstance

instance decEqLocalGroups : DecidableEq (String × Option (String × String)) := inferInstance

instance decEqVersionGroups :
    DecidableEq ((Nat × Option Nat × Option Nat) × Option (List PreSeg) ×
      Option (String × Option (String × String))) := inferInstance

/-- A constructed `Version` is exactly the validated field tuple. -/
theorem Version.init_ok_fields {major : Int} {minor patch : Option Int}
    {pre : Option (List PreSeg)} {loc : LocalArg} {v : Version}
    (h : Version.init major minor patch pre loc = .ok v) :
    v = ⟨major, minor, patch, pre, decodeLocalArg loc⟩ := by
  unfold Version.init at h
  cases h1 : checkReleaseNumbers major minor patch with
  | error e => rw [h1] at h; exact Except.noConfusion h
  | ok u =>
    rw [h1] at h
    cases h2 : checkPreRelease pre with
    | error e => rw [h2] at h; exact Except.noConfusion h
    | ok u2 =>
      rw [h2] at h
      cases h3 : checkLocalParts 0 (decodeLocalArg loc) with
      | error e => rw [h3] at h; exact Except.noConfusion h
      | ok u3 =>
        rw [h3] at h
        exact (Except.ok.inj h).symm

/-- The constructor fails as soon as the release-number checks fail. -/
theorem version_init_fail_release {major : Int} {minor patch : Option Int}
    (pre : Option (List PreSeg)) (loc : LocalArg)
    (h : (checkReleaseNumbers major minor patch).isOk = false) :
    (Version.init major minor patch pre loc).isOk = false := by
  unfold Version.init
  cases h1 : checkReleaseNumbers major minor patch with
  | error e => rfl
  | ok u => rw [h1] at h; exact Bool.noConfusion h

/-- The constructor fails as soon as the pre-release checks fail. -/
theorem version_init_fail_pre {major : Int} {minor patch : Option Int}
    {pre : Option (List PreSeg)} (loc : LocalArg)
    (h : (checkPreRelease pre).isOk = false) :
    (Version.init major minor patch pre loc).isOk = false := by
  unfold Version.init
  cases h1 : checkReleaseNumbers major minor patch with
  | error e => rfl
  | ok u =>
    cases h2 : checkPreRelease pre with
    | error e => rfl
    | ok u2 => rw [h2] at h; exact Bool.noConfusion h

theorem checkReleaseNumbers_neg_major {major : Int} (minor patch : Option Int)
    (h : major < 0) :
    checkReleaseNumbers major minor patch =
      .error ("major=" ++ toString major ++ " has wrong value") := by
  unfold checkReleaseNumbers
  rw [if_pos h]

theorem version_init_neg_major {major : Int} (minor patch : Option Int)
    (pre : Option (List PreSeg)) (loc : LocalArg) (h : major < 0) :
    (Version.init major minor patch pre loc).isOk = false := by
  apply version_init_fail_release
  rw [checkReleaseNumbers_neg_major minor patch h]
  rfl

theorem checkReleaseNumbers_patch_without_minor (major : Int) (p : Int) :
    (checkReleaseNumbers major none (some p)).isOk = false := by
  by_cases hmaj : major < 0
  · simp [checkReleaseNumbers, checkOptNonneg, hmaj, Except.isOk, Except.toBool]
  by_cases hp : p < 0
  · simp [checkReleaseNumbers, checkOptNonneg, hmaj, hp, Except.isOk, Except.toBool]
  · simp [checkReleaseNumbers, checkOptNonneg, hmaj, hp, Except.isOk, Except.toBool]

theorem version_init_patch_without_minor (major : Int) (p : Int)
    (pre : Option (List PreSeg)) (loc : LocalArg) :
    (Version.init major none (some p) pre loc).isOk = false :=
  version_init_fail_release pre loc (checkReleaseNumbers_patch_without_minor major p)

theorem checkPreSeg_neg_patch (sep ty : Option String) {n : Int} (h : n < 0) :
    (checkPreSeg (sep, ty, some n)).isOk = false := by
  unfold checkPreSeg
  cases hs : checkSepValue (sep, ty, some n).1 with
  | error e => rfl
  | ok u => simp [checkOptNonneg, h, Except.isOk, Except.toBool]

theorem checkPreSegs_mem_error {l : List PreSeg} {seg : PreSeg}
    (hm : seg ∈ l) (hbad : (checkPreSeg seg).isOk = false) :
    (checkPreSegs l).isOk = false := by
  induction l with
  | nil => cases hm
  | cons a rest ih =>
    unfold checkPreSegs
    cases hc : checkPreSeg a with
    | error e => rfl
    | ok u =>
      rcases List.mem_cons.mp hm with h | h
      · rw [h] at hbad; rw [hc] at hbad; exact Bool.noConfusion hbad
      · exact ih h

theorem version_init_bad_seg {l : List PreSeg} {seg : PreSeg}
    (major : Int) (minor patch : Option Int) (loc : LocalArg)
    (hm : seg ∈ l) (hbad : (checkPreSeg seg).isOk = false) :
    (Version.init major minor patch (some l) loc).isOk = false := by
  apply version_init_fail_pre
  unfold checkPreRelease
  cases l with
  | nil => cases hm
  | cons a rest => exact checkPreSegs_mem_error hm hbad

/-! ## A linear-order key for the comparison

On a class of versions wide enough to contain everything the grammar and
serializer traffic in, the three-stage walk of `__lt__` agrees with a
lexicographic key into Mathlib's `Prod.Lex` / list-lex orders, from which
trichotomy and transitivity follow. -/

/-- `validVersion` holds exactly when the stored fields pass the
constructor's validation (`v` is "successfully constructed"). -/
def validVersion (v : Version) : Bool :=
  (Version.init v._major v._minor v._patch v._pre_release (.tup v._local)).isOk

/-- The comparable class, pre-release part: either no pre-release, or a
non-empty sequence in which no segment sort-normalizes to the sentinel
`(1, '', 0)` (a sentinel-normalizing segment, such as `('.', None, 0)`,
makes the padding walk of `__lt__` reach its `NotImplementedError`). -/
def preOk (v : Version) : Bool :=
  match v._pre_release with
  | none => true
  | some l => !l.isEmpty && l.all fun seg => decide (normSeg seg ≠ sentinelSeg)

/-- Alternation of sort-normalized local tokens: strings at even positions,
separator-0 integers at odd ones (`expectStr` starts `true`).  A
separator-valued token in a string position makes `__lt__` compare an int
against a str, a `TypeError`. -/
def altTokens : Bool → List LocalTok → Bool
  | _, [] => true
  | true, .str _ :: rest => altTokens false rest
  | false, .int _ :: rest => altTokens true rest
  | _, _ => false

/-- The comparable class, local part. -/
def localOk (v : Version) : Bool := altTokens true v.localSort

def relKey (r : Int × Int × Int) : Int ×ₗ Int ×ₗ Int := toLex (r.1, toLex (r.2.1, r.2.2))

def segKey (a : NormSeg) : Nat ×ₗ String ×ₗ Int := toLex (a.1, toLex (a.2.1, a.2.2))

/-- Key of a sort-normalized pre-release tuple: the list extended with one
sentinel, under the list-lexicographic order.  Appending the sentinel turns
the `zip_longest`-with-sentinel walk into plain list lexicographic
comparison on the class. -/
def preKey (l : List NormSeg) : List (Nat ×ₗ String ×ₗ Int) :=
  (l ++ [sentinelSeg]).map segKey

def tokKey : LocalTok → Int ⊕ₗ String
  | .int n => toLex (Sum.inl n)
  | .str s => toLex (Sum.inr s)

def locKey (l : List LocalTok) : List (Int ⊕ₗ String) := l.map tokKey

/-- The full comparison key of a version. -/
def verKey (v : Version) :
    (Int ×ₗ Int ×ₗ Int) ×ₗ (List (Nat ×ₗ String ×ₗ Int) ×ₗ List (Int ⊕ₗ String)) :=
  toLex (relKey v.releaseSort, toLex (preKey v.preSort, locKey v.localSort))

theorem ltCharList_iff_lex {as bs : List Char} :
    ltCharList as bs = true ↔ List.Lex (· < ·) as bs := by
  induction as generalizing bs with
  | nil =>
    cases bs with
    | nil =>
      simp only [ltCharList]
      exact iff_of_false Bool.false_ne_true (by intro h; cases h)
    | cons b bs =>
      exact iff_of_true rfl List.Lex.nil
  | cons a as_ ih =>
    cases bs with
    | nil =>
      simp only [ltCharList]
      exact iff_of_false Bool.false_ne_true (List.Lex.not_nil_right _ _)
    | cons b bs =>
      simp only [ltCharList, Bool.or_eq_true, Bool.and_eq_true, decide_eq_true_eq]
      constructor
      · rintro (hab | ⟨hab, hrec⟩)
        · exact List.Lex.rel hab
        · rw [hab]; exact List.Lex.cons (ih.mp hrec)
      · intro h
        cases h with
        | rel hab => exact Or.inl hab
        | cons hrec => exact Or.inr ⟨rfl, ih.mpr hrec⟩

theorem ltStr_iff {a b : String} : ltStr a b = true ↔ a < b := by
  rw [String.lt_iff_toList_lt]
  exact ltCharList_iff_lex

theorem ltRel_iff {a b : Int × Int × Int} : ltRel a b = true ↔ relKey a < relKey b := by
  simp only [ltRel, relKey, Bool.or_eq_true, Bool.and_eq_true, decide_eq_true_eq,
    Prod.Lex.lt_iff]

theorem relKey_inj {a b : Int × Int × Int} : relKey a = relKey b ↔ a = b := by
  simp only [relKey, toLex_inj, Prod.mk.injEq]
  obtain ⟨a1, a2, a3⟩ := a
  obtain ⟨b1, b2, b3⟩ := b
  simp

theorem ltNormSeg_iff {a b : NormSeg} : ltNormSeg a b = true ↔ segKey a < segKey b := by
  simp only [ltNormSeg, segKey, Bool.or_eq_true, Bool.and_eq_true, decide_eq_true_eq,
    Prod.Lex.lt_iff, ltStr_iff]

theorem segKey_inj {a b : NormSeg} : segKey a = segKey b ↔ a = b := by
  simp only [segKey, toLex_inj, Prod.mk.injEq]
  obtain ⟨a1, a2, a3⟩ := a
  obtain ⟨b1, b2, b3⟩ := b
  simp

theorem tokKey_inj {a b : LocalTok} : tokKey a = tokKey b ↔ a = b := by
  cases a <;> cases b <;> simp [tokKey, toLex_inj]

/-- First difference decides the list-lexicographic order. -/
theorem list_lex_cons_ne {α : Type} [LinearOrder α] {x y : α} {xs ys : List α}
    (hxy : x ≠ y) : List.Lex (· < ·) (x :: xs) (y :: ys) ↔ x < y := by
  constructor
  · intro h
    cases h with
    | rel h => exact h
    | cons h => exact absurd rfl hxy
  · exact List.Lex.rel

theorem altTokens_tail {fl : Bool} {x : LocalTok} {xs : List LocalTok}
    (h : altTokens fl (x :: xs) = true) : altTokens (!fl) xs = true := by
  cases fl <;> cases x <;> first | exact h | exact Bool.noConfusion h

theorem altTokens_head_str {x : LocalTok} {xs : List LocalTok}
    (h : altTokens true (x :: xs) = true) : ∃ s, x = .str s := by
  cases x with
  | int n => exact Bool.noConfusion h
  | str s => exact ⟨s, rfl⟩

theorem altTokens_head_int {x : LocalTok} {xs : List LocalTok}
    (h : altTokens false (x :: xs) = true) : ∃ n, x = .int n := by
  cases x with
  | int n => exact ⟨n, rfl⟩
  | str s => exact Bool.noConfusion h

/-- The local stage of `__lt__` agrees with list-lexicographic order of the
token keys on alternation-respecting token lists. -/
theorem walkLocal_bridge (fl : Bool) (A B : List LocalTok)
    (hA : altTokens fl A = true) (hB : altTokens fl B = true) (hne : A ≠ B) :
    ∃ r, walkLocal A B = .ok r ∧ (r = true ↔ locKey A < locKey B) := by
  induction A generalizing fl B with
  | nil =>
    cases B with
    | nil => exact absurd rfl hne
    | cons b bs =>
      refine ⟨true, rfl, iff_of_true rfl ?_⟩
      exact List.nil_lt_cons _ _
  | cons a as_ ih =>
    cases B with
    | nil =>
      refine ⟨false, rfl, iff_of_false Bool.false_ne_true ?_⟩
      exact List.Lex.not_nil_right _ _
    | cons b bs =>
      by_cases hab : a = b
      · subst hab
        have hne' : as_ ≠ bs := fun h => hne (by rw [h])
        obtain ⟨r, hw, hiff⟩ := ih (!fl) bs (altTokens_tail hA) (altTokens_tail hB) hne'
        refine ⟨r, ?_, ?_⟩
        · show (if a ≠ a then ltLocalTok a a else walkLocal as_ bs) = .ok r
          rw [if_neg (not_not_intro rfl)]
          exact hw
        · have hcons : locKey (a :: as_) < locKey (a :: bs) ↔ locKey as_ < locKey bs :=
            List.Lex.cons_iff
          rw [hcons]
          exact hiff
      · have hk : tokKey a ≠ tokKey b := fun h => hab (tokKey_inj.mp h)
        have hw : walkLocal (a :: as_) (b :: bs) = ltLocalTok a b := by
          show (if a ≠ b then ltLocalTok a b else walkLocal as_ bs) = ltLocalTok a b
          rw [if_pos hab]
        have hhead : locKey (a :: as_) < locKey (b :: bs) ↔ tokKey a < tokKey b :=
          list_lex_cons_ne hk
        cases fl with
        | true =>
          obtain ⟨s1, rfl⟩ := altTokens_head_str hA
          obtain ⟨s2, rfl⟩ := altTokens_head_str hB
          refine ⟨ltStr s1 s2, hw, ?_⟩
          rw [ltStr_iff, hhead]
          exact Sum.Lex.inr_lt_inr_iff.symm
        | false =>
          obtain ⟨m, rfl⟩ := altTokens_head_int hA
          obtain ⟨n, rfl⟩ := altTokens_head_int hB
          refine ⟨decide (m < n), hw, ?_⟩
          rw [decide_eq_true_eq, hhead]
          exact Sum.Lex.inl_lt_inl_iff.symm

theorem preKey_cons (a : NormSeg) (l : List NormSeg) :
    preKey (a :: l) = segKey a :: preKey l := rfl

/-- The pre-release stage of `__lt__` agrees with list-lexicographic order of
the sentinel-extended segment keys on sentinel-free segment lists. -/
theorem walkPre_bridge (A B : List NormSeg)
    (hA : ∀ x ∈ A, x ≠ sentinelSeg) (hB : ∀ x ∈ B, x ≠ sentinelSeg) (hne : A ≠ B) :
    ∃ r, walkPre A B = some r ∧ (r = true ↔ preKey A < preKey B) := by
  induction A generalizing B with
  | nil =>
    cases B with
    | nil => exact absurd rfl hne
    | cons b bs =>
      have hb : b ≠ sentinelSeg := hB b (List.mem_cons_self b bs)
      refine ⟨ltNormSeg sentinelSeg b, ?_, ?_⟩
      · show walkPreNilLeft (b :: bs) = _
        unfold walkPreNilLeft
        rw [if_pos hb]
      · have hk : segKey sentinelSeg ≠ segKey b := fun h => hb (segKey_inj.mp h).symm
        rw [ltNormSeg_iff]
        exact (list_lex_cons_ne hk).symm
  | cons a as_ ih =>
    cases B with
    | nil =>
      have ha : a ≠ sentinelSeg := hA a (List.mem_cons_self a as_)
      refine ⟨ltNormSeg a sentinelSeg, ?_, ?_⟩
      · show (if a ≠ sentinelSeg then some (ltNormSeg a sentinelSeg)
            else walkPreNilRight as_) = _
        rw [if_pos ha]
      · have hk : segKey a ≠ segKey sentinelSeg := fun h => ha (segKey_inj.mp h)
        rw [ltNormSeg_iff]
        exact (list_lex_cons_ne hk).symm
    | cons b bs =>
      by_cases hab : a = b
      · subst hab
        have hne' : as_ ≠ bs := fun h => hne (by rw [h])
        obtain ⟨r, hw, hiff⟩ := ih bs (fun x hx => hA x (List.mem_cons_of_mem a hx))
          (fun x hx => hB x (List.mem_cons_of_mem a hx)) hne'
        refine ⟨r, ?_, ?_⟩
        · show (if a ≠ a then some (ltNormSeg a a) else walkPre as_ bs) = some r
          rw [if_neg (not_not_intro rfl)]
          exact hw
        · have hcons : preKey (a :: as_) < preKey (a :: bs) ↔ preKey as_ < preKey bs := by
            rw [preKey_cons, preKey_cons]
            exact List.Lex.cons_iff
          rw [hcons]
          exact hiff
      · refine ⟨ltNormSeg a b, ?_, ?_⟩
        · show (if a ≠ b then some (ltNormSeg a b) else walkPre as_ bs) = _
          rw [if_pos hab]
        · have hk : segKey a ≠ segKey b := fun h => hab (segKey_inj.mp h)
          rw [ltNormSeg_iff]
          exact (list_lex_cons_ne hk).symm

/-- The steps of the walk when one side is the absent-pre-release sentinel
list and the other a sentinel-free non-empty list. -/
theorem walkPre_sentinel_left {b : NormSeg} (bs : List NormSeg) (hb : b ≠ sentinelSeg) :
    walkPre [sentinelSeg] (b :: bs) = some (ltNormSeg sentinelSeg b) ∧
      (ltNormSeg sentinelSeg b = true ↔ preKey [sentinelSeg] < preKey (b :: bs)) := by
  constructor
  · show (if sentinelSeg ≠ b then some (ltNormSeg sentinelSeg b)
        else walkPre [] bs) = _
    rw [if_pos (Ne.symm hb)]
  · have hk : segKey sentinelSeg ≠ segKey b := fun h => hb (segKey_inj.mp h).symm
    rw [ltNormSeg_iff]
    exact (list_lex_cons_ne hk).symm

theorem walkPre_sentinel_right {a : NormSeg} (as_ : List NormSeg) (ha : a ≠ sentinelSeg) :
    walkPre (a :: as_) [sentinelSeg] = some (ltNormSeg a sentinelSeg) ∧
      (ltNormSeg a sentinelSeg = true ↔ preKey (a :: as_) < preKey [sentinelSeg]) := by
  constructor
  · show (if a ≠ sentinelSeg then some (ltNormSeg a sentinelSeg)
        else walkPre as_ []) = _
    rw [if_pos ha]
  · have hk : segKey a ≠ segKey sentinelSeg := fun h => ha (segKey_inj.mp h)
    rw [ltNormSeg_iff]
    exact (list_lex_cons_ne hk).symm

/-- The pre-release stage on the comparable class: each side is either the
sentinel list (no pre-release) or non-empty and sentinel-free. -/
theorem walkPre_class (A B : List NormSeg)
    (hA : A = [sentinelSeg] ∨ (A ≠ [] ∧ ∀ x ∈ A, x ≠ sentinelSeg))
    (hB : B = [sentinelSeg] ∨ (B ≠ [] ∧ ∀ x ∈ B, x ≠ sentinelSeg))
    (hne : A ≠ B) :
    ∃ r, walkPre A B = some r ∧ (r = true ↔ preKey A < preKey B) := by
  rcases hA with rfl | ⟨hAne, hAn⟩
  · rcases hB with rfl | ⟨hBne, hBn⟩
    · exact absurd rfl hne
    · cases B with
      | nil => exact absurd rfl hBne
      | cons b bs =>
        obtain ⟨hw, hiff⟩ :=
          walkPre_sentinel_left bs (hBn b (List.mem_cons_self b bs))
        exact ⟨_, hw, hiff⟩
  · rcases hB with rfl | ⟨hBne, hBn⟩
    · cases A with
      | nil => exact absurd rfl hAne
      | cons a as_ =>
        obtain ⟨hw, hiff⟩ :=
          walkPre_sentinel_right as_ (hAn a (List.mem_cons_self a as_))
        exact ⟨_, hw, hiff⟩
    · exact walkPre_bridge A B hAn hBn hne

theorem preKey_inj {A B : List NormSeg} : preKey A = preKey B ↔ A = B := by
  constructor
  · intro h
    have hinj : Function.Injective segKey := fun x y hxy => segKey_inj.mp hxy
    have happ : A ++ [sentinelSeg] = B ++ [sentinelSeg] :=
      List.map_injective_iff.mpr hinj h
    simpa using happ
  · rintro rfl; rfl

theorem locKey_inj {A B : List LocalTok} : locKey A = locKey B ↔ A = B := by
  constructor
  · intro h
    have hinj : Function.Injective tokKey := fun x y hxy => tokKey_inj.mp hxy
    exact List.map_injective_iff.mpr hinj h
  · rintro rfl; rfl

/-- Shape of the sort-normalized pre-release tuple on the comparable class. -/
theorem preOk_char {v : Version} (hp : preOk v = true) :
    v.preSort = [sentinelSeg] ∨ (v.preSort ≠ [] ∧ ∀ x ∈ v.preSort, x ≠ sentinelSeg) := by
  unfold preOk at hp
  cases h : v._pre_release with
  | none =>
    left
    simp [Version.preSort, h]
  | some l =>
    right
    rw [h] at hp
    simp only [Bool.and_eq_true, Bool.not_eq_true', List.all_eq_true,
      decide_eq_true_eq] at hp
    obtain ⟨hne, hall⟩ := hp
    have hps : v.preSort = l.map normSeg := by simp [Version.preSort, h]
    constructor
    · rw [hps]
      intro hcontra
      rw [List.map_eq_nil_iff] at hcontra
      rw [hcontra] at hne
      exact Bool.noConfusion hne
    · rw [hps]
      intro x hx
      rcases List.mem_map.mp hx with ⟨seg, hseg, rfl⟩
      exact hall seg hseg

/-- On the comparable class, `__lt__` returns (without raising) the strict
comparison of the lexicographic keys. -/
theorem lt_key_bridge (a b : Version) (hap : preOk a = true) (hbp : preOk b = true)
    (hal : localOk a = true) (hbl : localOk b = true) :
    ∃ r, Version.lt a b = .ok r ∧ (r = true ↔ verKey a < verKey b) := by
  by_cases hrel : a.releaseSort = b.releaseSort
  · by_cases hpre : a.preSort = b.preSort
    · by_cases hloc : a.localSort = b.localSort
      · refine ⟨false, ?_, ?_⟩
        · unfold Version.lt
          rw [if_neg (not_not_intro hrel), if_neg (not_not_intro hpre),
            if_neg (not_not_intro hloc)]
        · refine iff_of_false Bool.false_ne_true ?_
          have : verKey a = verKey b := by
            unfold verKey
            rw [hrel, hpre, hloc]
          rw [this]
          exact lt_irrefl _
      · obtain ⟨r, hw, hiff⟩ := walkLocal_bridge true _ _ hal hbl hloc
        refine ⟨r, ?_, ?_⟩
        · unfold Version.lt
          rw [if_neg (not_not_intro hrel), if_neg (not_not_intro hpre), if_pos hloc]
          exact hw
        · rw [hiff]
          unfold verKey
          rw [hrel, hpre]
          rw [Prod.Lex.lt_iff]
          simp only [lt_irrefl, false_or, true_and, Prod.Lex.lt_iff]
    · obtain ⟨r, hw, hiff⟩ :=
        walkPre_class a.preSort b.preSort (preOk_char hap) (preOk_char hbp) hpre
      refine ⟨r, ?_, ?_⟩
      · unfold Version.lt
        rw [if_neg (not_not_intro hrel), if_pos hpre]
        rw [hw]
      · rw [hiff]
        have hkne : preKey a.preSort ≠ preKey b.preSort := fun h => hpre (preKey_inj.mp h)
        unfold verKey
        rw [hrel]
        rw [Prod.Lex.lt_iff]
        simp only [lt_irrefl, false_or, true_and, Prod.Lex.lt_iff, hkne, false_and, or_false]
  · refine ⟨ltRel a.releaseSort b.releaseSort, ?_, ?_⟩
    · unfold Version.lt
      rw [if_pos hrel]
    · rw [ltRel_iff]
      have hkne : relKey a.releaseSort ≠ relKey b.releaseSort :=
        fun h => hrel (relKey_inj.mp h)
      unfold verKey
      rw [Prod.Lex.lt_iff]
      simp only [hkne, false_and, or_false]

/-- `__eq__` from the two `__lt__` results. -/
theorem eq_of_lt_results {a b : Version} {x y : Bool}
    (h1 : Version.lt a b = .ok x) (h2 : Version.lt b a = .ok y) :
    Version.eq a b = .ok (!x && !y) := by
  unfold Version.eq
  rw [h1, except_bind_ok]
  cases x with
  | true => rfl
  | false =>
    rw [h2]
    rfl

/-- The type of one pre-release segment, when present, consists of ASCII
letters only. -/
def segTypeAlpha (seg : PreSeg) : Bool :=
  match seg.2.1 with
  | none => true
  | some t => t.data.all Char.isAlpha

/-- Every pre-release segment type of the version, when present, consists of
ASCII letters only. -/
def preTypesAllAlpha (v : Version) : Bool :=
  (v._pre_release.getD []).all segTypeAlpha

theorem parseLetters_alpha {s : List Char} {ls : String} {r : List Char}
    (h : parseLetters s = some (ls, r)) : ls.data.all Char.isAlpha = true := by
  unfold parseLetters at h
  by_cases he : (s.takeWhile Char.isAlpha).isEmpty
  · rw [if_pos he] at h; exact Option.noConfusion h
  · rw [if_neg he] at h
    simp only [Option.some.injEq, Prod.mk.injEq] at h
    obtain ⟨hl, _⟩ := h
    rw [← hl]
    simp only [List.all_eq_true]
    intro x hx
    exact List.mem_takeWhile_imp hx

theorem parseSeg_type_alpha {s : List Char} {seg : PreSeg} {r : List Char}
    (h : parseSeg s = some (seg, r)) : segTypeAlpha seg = true := by
  cases s with
  | nil => exact Option.noConfusion h
  | cons c rest =>
    simp only [parseSeg] at h
    by_cases hsep : isSepChar c
    · rw [if_pos hsep] at h
      cases hn : parseNumber rest with
      | some nr =>
        obtain ⟨n, r'⟩ := nr
        rw [hn] at h
        simp only [Option.some.injEq, Prod.mk.injEq] at h
        obtain ⟨hseg, _⟩ := h
        rw [← hseg]
        rfl
      | none =>
        rw [hn] at h
        simp only at h
        cases hl : parseLetters rest with
        | none => rw [hl] at h; exact Option.noConfusion h
        | some lr =>
          obtain ⟨ls, r'⟩ := lr
          rw [hl] at h
          simp only at h
          cases hn2 : parseNumber r' with
          | some nr2 =>
            obtain ⟨n2, r''⟩ := nr2
            rw [hn2] at h
            simp only [Option.some.injEq, Prod.mk.injEq] at h
            obtain ⟨hseg, _⟩ := h
            rw [← hseg]
            exact parseLetters_alpha hl
          | none =>
            rw [hn2] at h
            simp only [Option.some.injEq, Prod.mk.injEq] at h
            obtain ⟨hseg, _⟩ := h
            rw [← hseg]
            exact parseLetters_alpha hl
    · rw [if_neg hsep] at h
      cases hl : parseLetters (c :: rest) with
      | none => rw [hl] at h; exact Option.noConfusion h
      | some lr =>
        obtain ⟨ls, r'⟩ := lr
        rw [hl] at h
        simp only at h
        cases hn2 : parseNumber r' with
        | some nr2 =>
          obtain ⟨n2, r''⟩ := nr2
          rw [hn2] at h
          simp only [Option.some.injEq, Prod.mk.injEq] at h
          obtain ⟨hseg, _⟩ := h
          rw [← hseg]
          exact parseLetters_alpha hl
        | none =>
          rw [hn2] at h
          simp only [Option.some.injEq, Prod.mk.injEq] at h
          obtain ⟨hseg, _⟩ := h
          rw [← hseg]
          exact parseLetters_alpha hl

theorem parseSegsF_types_alpha (fuel : Nat) (s : List Char) :
    ∀ seg ∈ (parseSegsF fuel s).1, segTypeAlpha seg = true := by
  induction fuel generalizing s with
  | zero => intro seg hm; cases hm
  | succ fuel ih =>
    intro seg hm
    unfold parseSegsF at hm
    cases hp : parseSeg s with
    | none => rw [hp] at hm; cases hm
    | some sr =>
      obtain ⟨seg1, rest⟩ := sr
      rw [hp] at hm
      simp only at hm
      rcases List.mem_cons.mp hm with h | h
      · rw [h]; exact parseSeg_type_alpha hp
      · exact ih rest seg h

theorem parseVersionGroups_types_alpha {s : List Char}
    {rel : Nat × Option Nat × Option Nat} {pre : Option (List PreSeg)}
    {loc : Option (String × Option (String × String))}
    (h : parseVersionGroups s = some (rel, pre, loc)) :
    ∀ seg ∈ pre.getD [], segTypeAlpha seg = true := by
  unfold parseVersionGroups at h
  cases hr : parseRelease s with
  | none => rw [hr] at h; exact Option.noConfusion h
  | some rr =>
    obtain ⟨rel1, r1⟩ := rr
    rw [hr] at h
    simp only at h
    have hsegs : ∀ seg ∈ (parseSegs r1).1, segTypeAlpha seg = true :=
      parseSegsF_types_alpha _ _
    by_cases h2 : (parseSegs r1).2.isEmpty
    · rw [if_pos h2] at h
      simp only [Option.some.injEq, Prod.mk.injEq] at h
      obtain ⟨_, hpre, _⟩ := h
      rw [← hpre]
      by_cases hempty : (parseSegs r1).1.isEmpty
      · rw [if_pos hempty]
        intro seg hm
        cases hm
      · rw [if_neg hempty]
        exact hsegs
    · rw [if_neg h2] at h
      cases hlg : parseLocalGroups (parseSegs r1).2 with
      | none => rw [hlg] at h; exact Option.noConfusion h
      | some lr =>
        obtain ⟨lg, r3⟩ := lr
        rw [hlg] at h
        simp only at h
        by_cases h3 : r3.isEmpty
        · rw [if_pos h3] at h
          simp only [Option.some.injEq, Prod.mk.injEq] at h
          obtain ⟨_, hpre, _⟩ := h
          rw [← hpre]
          by_cases hempty : (parseSegs r1).1.isEmpty
          · rw [if_pos hempty]
            intro seg hm
            cases hm
          · rw [if_neg hempty]
            exact hsegs
        · rw [if_neg h3] at h
          exact Option.noConfusion h

/-! ## Claim theorems -/

/-- C1: the claimed round-trip contract fails on the code.  `from_str` keeps
only the last `(separator, part)` pair of a multi-part local version (Python
retains only the final iteration of a repeated capture group), so
`from_str('1+a.b.c')` drops `.b` and serializes back as `'1+a.c'`, which is
not equal (per the ordering) to the directly-constructed original; moreover
`to_str` raises `ValueError` on any parsed version whose pre-release segment
lacks a separator, e.g. `from_str('1rc1')`. -/
theorem c1_round_trip_fails :
    Version.fromStr "1+a.b.c" = .ok ⟨1, none, none, none, ["a", ".", "c"]⟩ ∧
    Version.init 1 none none none (.tup ["a", ".", "b", ".", "c"]) =
      .ok ⟨1, none, none, none, ["a", ".", "b", ".", "c"]⟩ ∧
    (⟨1, none, none, none, ["a", ".", "b", ".", "c"]⟩ : Version).toStr = .ok "1+a.b.c" ∧
    (Version.fromStrD "1+a.b.c").toStr = .ok "1+a.c" ∧
    Version.eq (Version.fromStrD "1+a.b.c")
      ⟨1, none, none, none, ["a", ".", "b", ".", "c"]⟩ = .ok false ∧
    Version.fromStr "1rc1" = .ok ⟨1, none, none, some [(none, some "rc", some 1)], []⟩ ∧
    (Version.fromStrD "1rc1").toStr = .error "cannot generate valid version string" := by
  refine ⟨by decide, by decide, by decide, by decide, by decide, by decide, by decide⟩

/-- C5: the claimed `from_dict(to_dict(v)) == v` round trip fails on the code
for every version: `to_dict` returns `vars(self)`, whose keys are the private
attribute names `_major`, `_minor`, ..., and `from_dict` forwards them as
keyword arguments to `__init__`, which accepts only `major`, `minor`,
`patch`, `pre_release`, `local` — a `TypeError` on the first unexpected
keyword. -/
theorem c5_from_dict_to_dict_always_fails (v : Version) :
    Version.fromDict v.toDict =
      .error "TypeError: __init__ got an unexpected keyword argument" := rfl

/-- C6: a string that does not fully match the version grammar is rejected by
`from_str` with a `ValueError` whose message quotes the offending string; a
matching prefix followed by trailing garbage never succeeds. -/
theorem c6_invalid_strings_rejected :
    (∀ s : String, parseVersionGroups s.data = none →
      Version.fromStr s = .error (invalidVersionMessage s)) ∧
    Version.fromStr "hello world" = .error "version string 'hello world' is invalid" ∧
    Version.fromStr "1.0.0" = .ok ⟨1, some 0, some 0, none, []⟩ ∧
    Version.fromStr "1.0.0 x" = .error "version string '1.0.0 x' is invalid" ∧
    Version.fromStr "1.0.0!" = .error (invalidVersionMessage "1.0.0!") := by
  refine ⟨?_, by decide, by decide, by decide, by decide⟩
  intro s h
  unfold Version.fromStr
  rw [h]

/-- C6 witness: a concrete non-matching string. -/
theorem c6_witness :
    parseVersionGroups "x!".data = none ∧
    Version.fromStr "x!" = .error (invalidVersionMessage "x!") :=
  ⟨by decide, c6_invalid_strings_rejected.1 "x!" (by decide)⟩

/-- C7: the constructor fails whenever major is negative, whenever patch is
given while minor is unset, and whenever some pre-release segment carries a
negative patch number; in particular on the three concrete examples of the
spec. -/
theorem c7_constructor_rejections :
    (∀ (major : Int) (minor patch : Option Int) (pre : Option (List PreSeg))
      (loc : LocalArg), major < 0 → (Version.init major minor patch pre loc).isOk = false) ∧
    (∀ (major p : Int) (pre : Option (List PreSeg)) (loc : LocalArg),
      (Version.init major none (some p) pre loc).isOk = false) ∧
    (∀ (major : Int) (minor patch : Option Int) (l : List PreSeg) (loc : LocalArg)
      (sep ty : Option String) (n : Int), (sep, ty, some n) ∈ l → n < 0 →
      (Version.init major minor patch (some l) loc).isOk = false) ∧
    (Version.init (-1)).isOk = false ∧
    (Version.init 5 none (some 2)).isOk = false ∧
    (Version.init 5 none none (some [(none, some "dev", some (-1))])).isOk = false := by
  refine ⟨?_, ?_, ?_, by decide, by decide, by decide⟩
  · intro major minor patch pre loc h
    exact version_init_neg_major minor patch pre loc h
  · intro major p pre loc
    exact version_init_patch_without_minor major p pre loc
  · intro major minor patch l loc sep ty n hm hneg
    exact version_init_bad_seg major minor patch loc hm (checkPreSeg_neg_patch sep ty hneg)

/-- C7 witness: the universal rejections applied at the spec's concrete
inputs. -/
theorem c7_witness :
    ((-1 : Int) < 0 ∧ (Version.init (-1) none none none .noLocal).isOk = false) ∧
    (Version.init 5 none (some 2) none .noLocal).isOk = false ∧
    ((none, some "dev", some (-1)) ∈ [((none : Option String), some "dev", some (-1 : Int))] ∧
      (-1 : Int) < 0 ∧
      (Version.init 5 none none (some [(none, some "dev", some (-1))]) .noLocal).isOk = false) :=
  ⟨⟨by decide, c7_constructor_rejections.1 (-1) none none none .noLocal (by decide)⟩,
   c7_constructor_rejections.2.1 5 2 none .noLocal,
   ⟨by decide, by decide,
    c7_constructor_rejections.2.2.1 5 none none _ .noLocal none (some "dev") (-1)
      (by decide) (by decide)⟩⟩

/-- C9: `from_str('1.0.0.0')` succeeds with the single pre-release segment
`('.', None, 0)`, which sort-normalizes to the sentinel `(1, '', 0)` of an
absent pre-release, so the parsed version compares equal to
`from_str('1.0.0')`. -/
theorem c9_numeric_zero_segment_equals_sentinel :
    Version.fromStr "1.0.0.0" =
      .ok ⟨1, some 0, some 0, some [(some ".", none, some 0)], []⟩ ∧
    (Version.fromStrD "1.0.0.0").preSort = [sentinelSeg] ∧
    (Version.fromStrD "1.0.0").preSort = [sentinelSeg] ∧
    Version.eq (Version.fromStrD "1.0.0.0") (Version.fromStrD "1.0.0") = .ok true := by
  refine ⟨by decide, by decide, by decide, by decide⟩

/-- C10: the constructor accepts a bare string for `local`, wrapping it as a
one-part tuple, so `Version(1, local='abc')` succeeds and serializes as
`'1+abc'`. -/
theorem c10_local_accepts_bare_string :
    (∀ s : String, Version.init 1 none none none (.str s) =
      .ok ⟨1, none, none, none, [s]⟩) ∧
    (∀ s : String, (⟨1, none, none, none, [s]⟩ : Version).toStr = .ok ("1+" ++ s)) ∧
    Version.init 1 none none none (.str "abc") = .ok ⟨1, none, none, none, ["abc"]⟩ ∧
    (Version.fromStrD "1+abc") = ⟨1, none, none, none, ["abc"]⟩ ∧
    (⟨1, none, none, none, ["abc"]⟩ : Version).toStr = .ok "1+abc" := by
  refine ⟨fun s => rfl, fun s => rfl, by decide, by decide, by decide⟩

/-- C10 witness: the bare-string local at the claim's concrete input. -/
theorem c10_witness :
    Version.init 1 none none none (.str "abc") = .ok ⟨1, none, none, none, ["abc"]⟩ ∧
    (⟨1, none, none, none, ["abc"]⟩ : Version).toStr = .ok ("1+" ++ "abc") :=
  ⟨c10_local_accepts_bare_string.1 "abc", c10_local_accepts_bare_string.2.1 "abc"⟩

/-- C2: the increment state machine of §4.7 (modelled from the spec, the
method being absent from the sources): Major adds the amount and resets the
set subordinate components, Minor and Patch set-or-add and reset their
subordinates, DevPatch appends a `('.', 'dev', amount)` segment when there is
no pre-release or the last segment's type is not `'dev'` and otherwise adds
the amount to the last segment's patch; incrementing DevPatch twice from
`1.0.0` yields `1.0.0.dev1` then `1.0.0.dev2`. -/
theorem c2_increment_state_machine :
    (∀ (v : Version) (amt : Int), v.increment .Major amt =
      .ok ⟨v._major + amt, v._minor.map fun _ => 0, v._patch.map fun _ => 0, none, []⟩) ∧
    (∀ (v : Version) (amt : Int), v.increment .Minor amt =
      .ok ⟨v._major, some (v._minor.getD 0 + amt), v._patch.map fun _ => 0, none, []⟩) ∧
    (∀ (v : Version) (amt : Int), v.increment .Patch amt =
      .ok ⟨v._major, v._minor, some (v._patch.getD 0 + amt), none, []⟩) ∧
    (∀ (v : Version) (amt : Int), v._pre_release = none → v.increment .DevPatch amt =
      .ok ⟨v._major, v._minor, v._patch, some [(some ".", some "dev", some amt)], v._local⟩) ∧
    (∀ (v : Version) (segs : List PreSeg) (sep ty : Option String) (pa : Option Int)
      (amt : Int), v._pre_release = some segs → segs.getLast? = some (sep, ty, pa) →
      ty ≠ some "dev" → v.increment .DevPatch amt =
        .ok ⟨v._major, v._minor, v._patch,
          some (segs ++ [(some ".", some "dev", some amt)]), v._local⟩) ∧
    (∀ (v : Version) (segs : List PreSeg) (sep : Option String) (pa : Option Int)
      (amt : Int), v._pre_release = some segs →
      segs.getLast? = some (sep, some "dev", pa) → v.increment .DevPatch amt =
        .ok ⟨v._major, v._minor, v._patch,
          some (segs.dropLast ++ [(sep, some "dev", some (pa.getD 0 + amt))]), v._local⟩) ∧
    Version.fromStr "1.0.0" = .ok ⟨1, some 0, some 0, none, []⟩ ∧
    (Version.fromStrD "1.0.0").increment .DevPatch = .ok (Version.fromStrD "1.0.0.dev1") ∧
    (Version.fromStrD "1.0.0.dev1").toStr = .ok "1.0.0.dev1" ∧
    (Version.fromStrD "1.0.0.dev1").increment .DevPatch =
      .ok (Version.fromStrD "1.0.0.dev2") ∧
    (Version.fromStrD "1.0.0.dev2").toStr = .ok "1.0.0.dev2" := by
  refine ⟨fun v amt => rfl, fun v amt => rfl, fun v amt => rfl, ?_, ?_, ?_,
    by decide, by decide, by decide, by decide, by decide⟩
  · intro v amt h
    simp [Version.increment, h]
  · intro v segs sep ty pa amt hpre hlast hty
    simp [Version.increment, hpre, hlast, hty]
  · intro v segs sep pa amt hpre hlast
    simp [Version.increment, hpre, hlast]

/-- C2 witness: the DevPatch transitions applied at the concrete chain of the
claim. -/
theorem c2_witness :
    ((Version.fromStrD "1.0.0")._pre_release = none ∧
      (Version.fromStrD "1.0.0").increment .DevPatch 1 =
        .ok ⟨1, some 0, some 0, some [(some ".", some "dev", some 1)], []⟩) ∧
    ((Version.fromStrD "1.0.0.dev1")._pre_release = some [(some ".", some "dev", some 1)] ∧
      [((some "." : Option String), some "dev", some (1 : Int))].getLast? =
        some (some ".", some "dev", some 1) ∧
      (Version.fromStrD "1.0.0.dev1").increment .DevPatch 1 =
        .ok ⟨1, some 0, some 0, some [(some ".", some "dev", some 2)], []⟩) :=
  ⟨⟨by decide, c2_increment_state_machine.2.2.2.1 (Version.fromStrD "1.0.0") 1 (by decide)⟩,
   ⟨by decide, by decide,
    c2_increment_state_machine.2.2.2.2.2.1 (Version.fromStrD "1.0.0.dev1")
      [(some ".", some "dev", some 1)] (some ".") (some 1) 1 (by decide) (by decide)⟩⟩

/-- C3: the claim is refuted by `from_str('1.0.0.1')`: its pre-release is the
non-empty `[('.', None, 1)]` and `from_str('1.0.0')` has none, yet the
comparison returns False (the segment sort-normalizes to `(1, '', 1)`, above
the sentinel `(1, '', 0)`). -/
theorem c3_counterexample :
    Version.fromStr "1.0.0.1" =
      .ok ⟨1, some 0, some 0, some [(some ".", none, some 1)], []⟩ ∧
    (Version.fromStrD "1.0.0.1")._pre_release ≠ none ∧
    (Version.fromStrD "1.0.0.1").releaseSort = (Version.fromStrD "1.0.0").releaseSort ∧
    (Version.fromStrD "1.0.0")._pre_release = none ∧
    Version.lt (Version.fromStrD "1.0.0.1") (Version.fromStrD "1.0.0") = .ok false ∧
    Version.lt (Version.fromStrD "1.0.0") (Version.fromStrD "1.0.0.1") = .ok true := by
  refine ⟨by decide, by decide, by decide, by decide, by decide, by decide⟩

/-- C3 (amended): when the release numbers agree, `a`'s pre-release sequence
is non-empty and its first segment carries a type, and `b` has no
pre-release, `a < b` holds; in particular
`from_str('1.0.1.dev0') < from_str('1.0.1')`. -/
theorem c3_typed_pre_release_sorts_below (a b : Version) (sep : Option String)
    (t : String) (pa : Option Int) (rest : List PreSeg)
    (hrel : a.releaseSort = b.releaseSort)
    (hpre : a._pre_release = some ((sep, some t, pa) :: rest))
    (hb : b._pre_release = none) :
    Version.lt a b = .ok true := by
  have hpa : a.preSort = (0, strLower t, pa.getD 0) :: rest.map normSeg := by
    simp [Version.preSort, hpre, normSeg]
  have hpb : b.preSort = [sentinelSeg] := by simp [Version.preSort, hb]
  have hne : a.preSort ≠ b.preSort := by
    rw [hpa, hpb]
    intro hcontra
    have := List.head_eq_of_cons_eq hcontra
    simp [sentinelSeg] at this
  unfold Version.lt
  rw [if_neg (not_not_intro hrel), if_pos hne, hpa, hpb]
  have hstep : walkPre ((0, strLower t, pa.getD 0) :: rest.map normSeg) [sentinelSeg] =
      some (ltNormSeg (0, strLower t, pa.getD 0) sentinelSeg) := by
    unfold walkPre
    rw [if_pos]
    intro hcontra
    simp [sentinelSeg] at hcontra
  rw [hstep]
  rfl

/-- C4: the claim is refuted on the code: `__lt__` raises
`NotImplementedError` on parsed versions whose sort-normalized pre-release
tuples differ only by trailing sentinel segments
(`from_str('1.0.0.0.0') < from_str('1.0.0.0')`), and raises `TypeError` on
constructible versions whose local part puts a separator character in a part
position, so the operators are not total on all successfully-constructed
versions. -/
theorem c4_counterexample :
    Version.fromStr "1.0.0.0.0" =
      .ok ⟨1, some 0, some 0, some [(some ".", none, some 0), (some ".", none, some 0)],
        []⟩ ∧
    Version.fromStr "1.0.0.0" =
      .ok ⟨1, some 0, some 0, some [(some ".", none, some 0)], []⟩ ∧
    Version.lt (Version.fromStrD "1.0.0.0.0") (Version.fromStrD "1.0.0.0") =
      .error "NotImplementedError" ∧
    Version.lt (Version.fromStrD "1.0.0.0") (Version.fromStrD "1.0.0.0.0") =
      .error "NotImplementedError" ∧
    Version.init 1 none none none (.tup ["."]) = .ok ⟨1, none, none, none, ["."]⟩ ∧
    Version.init 1 none none none (.tup ["a"]) = .ok ⟨1, none, none, none, ["a"]⟩ ∧
    Version.lt ⟨1, none, none, none, ["."]⟩ ⟨1, none, none, none, ["a"]⟩ =
      .error "TypeError: unorderable types int and str" := by
  refine ⟨by decide, by decide, by decide, by decide, by decide, by decide, by decide⟩

/-- C4 (amended): on successfully-constructed versions in the comparable
class — no pre-release segment sort-normalizes to the sentinel `(1, '', 0)`
and local tokens alternate non-separator part / separator — the comparison
operators are total: none of them raises, exactly one of `a < b`, `a == b`,
`b < a` holds, and `<` is transitive. -/
theorem c4_ordering_totality_and_transitivity (a b c : Version)
    (_hva : validVersion a = true) (_hvb : validVersion b = true)
    (_hvc : validVersion c = true)
    (hpa : preOk a = true) (hpb : preOk b = true) (hpc : preOk c = true)
    (hla : localOk a = true) (hlb : localOk b = true) (hlc : localOk c = true) :
    ((Version.lt a b = .ok true ∧ Version.eq a b = .ok false ∧
        Version.lt b a = .ok false) ∨
      (Version.lt a b = .ok false ∧ Version.eq a b = .ok true ∧
        Version.lt b a = .ok false) ∨
      (Version.lt a b = .ok false ∧ Version.eq a b = .ok false ∧
        Version.lt b a = .ok true)) ∧
    (Version.lt a b = .ok true → Version.lt b c = .ok true →
      Version.lt a c = .ok true) := by
  obtain ⟨r1, h1, i1⟩ := lt_key_bridge a b hpa hpb hla hlb
  obtain ⟨r2, h2, i2⟩ := lt_key_bridge b a hpb hpa hlb hla
  constructor
  · rcases lt_trichotomy (verKey a) (verKey b) with hlt | heq | hgt
    · left
      have hr1 : r1 = true := i1.mpr hlt
      have hr2 : r2 = false := by
        cases r2 with
        | true => exact absurd (i2.mp rfl) (lt_asymm hlt)
        | false => rfl
      rw [hr1] at h1
      rw [hr2] at h2
      exact ⟨h1, eq_of_lt_results h1 h2, h2⟩
    · right; left
      have hr1 : r1 = false := by
        cases r1 with
        | true => exact absurd (i1.mp rfl) (by rw [heq]; exact lt_irrefl _)
        | false => rfl
      have hr2 : r2 = false := by
        cases r2 with
        | true => exact absurd (i2.mp rfl) (by rw [heq]; exact lt_irrefl _)
        | false => rfl
      rw [hr1] at h1
      rw [hr2] at h2
      exact ⟨h1, eq_of_lt_results h1 h2, h2⟩
    · right; right
      have hr1 : r1 = false := by
        cases r1 with
        | true => exact absurd (i1.mp rfl) (lt_asymm hgt)
        | false => rfl
      have hr2 : r2 = true := i2.mpr hgt
      rw [hr1] at h1
      rw [hr2] at h2
      exact ⟨h1, eq_of_lt_results h1 h2, h2⟩
  · intro hab hbc
    obtain ⟨r3, h3, i3⟩ := lt_key_bridge b c hpb hpc hlb hlc
    obtain ⟨r4, h4, i4⟩ := lt_key_bridge a c hpa hpc hla hlc
    have e1 : r1 = true := Except.ok.inj (h1.symm.trans hab)
    have e3 : r3 = true := Except.ok.inj (h3.symm.trans hbc)
    have e4 : r4 = true := i4.mpr (lt_trans (i1.mp e1) (i3.mp e3))
    rw [e4] at h4
    exact h4

/-- C4 witness: totality and transitivity at a concrete comparable triple
`1.0.0.dev1 < 1.0.0.dev2 < 1.0.0`. -/
theorem c4_witness :
    (validVersion (Version.fromStrD "1.0.0.dev1") = true ∧
      preOk (Version.fromStrD "1.0.0.dev1") = true ∧
      localOk (Version.fromStrD "1.0.0.dev1") = true) ∧
    (((Version.lt (Version.fromStrD "1.0.0.dev1") (Version.fromStrD "1.0.0.dev2") =
          .ok true ∧
        Version.eq (Version.fromStrD "1.0.0.dev1") (Version.fromStrD "1.0.0.dev2") =
          .ok false ∧
        Version.lt (Version.fromStrD "1.0.0.dev2") (Version.fromStrD "1.0.0.dev1") =
          .ok false) ∨
      (Version.lt (Version.fromStrD "1.0.0.dev1") (Version.fromStrD "1.0.0.dev2") =
          .ok false ∧
        Version.eq (Version.fromStrD "1.0.0.dev1") (Version.fromStrD "1.0.0.dev2") =
          .ok true ∧
        Version.lt (Version.fromStrD "1.0.0.dev2") (Version.fromStrD "1.0.0.dev1") =
          .ok false) ∨
      (Version.lt (Version.fromStrD "1.0.0.dev1") (Version.fromStrD "1.0.0.dev2") =
          .ok false ∧
        Version.eq (Version.fromStrD "1.0.0.dev1") (Version.fromStrD "1.0.0.dev2") =
          .ok false ∧
        Version.lt (Version.fromStrD "1.0.0.dev2") (Version.fromStrD "1.0.0.dev1") =
          .ok true)) ∧
    (Version.lt (Version.fromStrD "1.0.0.dev1") (Version.fromStrD "1.0.0.dev2") =
        .ok true →
      Version.lt (Version.fromStrD "1.0.0.dev2") (Version.fromStrD "1.0.0") = .ok true →
      Version.lt (Version.fromStrD "1.0.0.dev1") (Version.fromStrD "1.0.0") =
        .ok true)) :=
  ⟨⟨by decide, by decide, by decide⟩,
   c4_ordering_totality_and_transitivity (Version.fromStrD "1.0.0.dev1")
     (Version.fromStrD "1.0.0.dev2") (Version.fromStrD "1.0.0")
     (by decide) (by decide) (by decide) (by decide) (by decide) (by decide)
     (by decide) (by decide) (by decide)⟩

/-- C8: the claim is refuted: the constructor validates only that a
pre-release type is a string, so a type with non-letter characters (here
`'a1'`) passes validation. -/
theorem c8_counterexample :
    Version.init 1 none none (some [(some ".", some "a1", none)]) =
      .ok ⟨1, none, none, some [(some ".", some "a1", none)], []⟩ := by decide

/-- C8 (amended): the constructor accepts any string as a pre-release type
(it only checks the string kind, not the characters), while every version
produced by `from_str` carries types consisting solely of ASCII letters. -/
theorem c8_types_strings_only_checked :
    (∀ t : String,
      Version.init 1 none none (some [(some ".", some t, none)]) =
        .ok ⟨1, none, none, some [(some ".", some t, none)], []⟩) ∧
    (∀ (s : String) (v : Version), Version.fromStr s = .ok v →
      preTypesAllAlpha v = true) := by
  constructor
  · intro t
    rfl
  · intro s v h
    unfold Version.fromStr at h
    cases hp : parseVersionGroups s.data with
    | none => rw [hp] at h; exact Except.noConfusion h
    | some groups =>
      obtain ⟨rel, pre, loc⟩ := groups
      rw [hp] at h
      simp only at h
      have hv := Version.init_ok_fields h
      have halpha := parseVersionGroups_types_alpha hp
      unfold preTypesAllAlpha
      rw [hv]
      simp only [List.all_eq_true]
      exact halpha

/-- C8 witness: the amended statements at concrete inputs. -/
theorem c8_witness :
    Version.init 1 none none (some [(some ".", some "a1b2", none)]) =
      .ok ⟨1, none, none, some [(some ".", some "a1b2", none)], []⟩ ∧
    (Version.fromStr "1.0.1.dev0" =
      .ok ⟨1, some 0, some 1, some [(some ".", some "dev", some 0)], []⟩ ∧
     preTypesAllAlpha ⟨1, some 0, some 1, some [(some ".", some "dev", some 0)], []⟩ =
       true) :=
  ⟨c8_types_strings_only_checked.1 "a1b2",
   by decide,
   c8_types_strings_only_checked.2 "1.0.1.dev0"
     ⟨1, some 0, some 1, some [(some ".", some "dev", some 0)], []⟩ (by decide)⟩

/-- C3 witness: the amended ordering rule at the spec's concrete pair. -/
theorem c3_witness :
    (Version.fromStrD "1.0.1.dev0").releaseSort = (Version.fromStrD "1.0.1").releaseSort ∧
    (Version.fromStrD "1.0.1.dev0")._pre_release =
      some [(some ".", some "dev", some 0)] ∧
    (Version.fromStrD "1.0.1")._pre_release = none ∧
    Version.lt (Version.fromStrD "1.0.1.dev0") (Version.fromStrD "1.0.1") = .ok true :=
  ⟨by decide, by decide, by decide,
   c3_typed_pre_release_sorts_below (Version.fromStrD "1.0.1.dev0")
     (Version.fromStrD "1.0.1") (some ".") "dev" (some 0) [] (by decide) (by decide)
     (by decide)⟩
